import Mathlib

/-
Verification of the analytics layer of the fpl_stats repository.

The season table is a list of (team, gameweek) records (`Row`); every analytics
function of `fpl_data.py` is embedded as a Lean function over such lists.
Pandas-specific semantics that matter to the embedded functions (boolean-mask
filtering preserving row order, `unique()` returning distinct values, `groupby`
sorting its keys, index alignment on column assignment, NaN propagation) are
modelled explicitly and documented at each definition.
-/

namespace Fpl

/-- One row of the season table: a (team, gameweek) record.  The nested squad
column (`team`) and the transfer id lists are omitted: no function verified
here reads their contents. -/
structure Row where
  gw : ℕ
  entry_name : String
  points : ℤ
  bench : ℤ
  hits : ℤ
  event_transfers : ℤ
  chip : Option String
  captain_id : ℤ
  captain_points : ℤ
  transfer_gain : ℤ
deriving DecidableEq

/-- The season table, in file row order. -/
abbrev Table := List Row

/-- `df[df['entry_name'] == name]`: boolean-mask filter, keeps row order. -/
def teamRows (df : Table) (name : String) : Table :=
  df.filter (fun r => r.entry_name = name)

/-- `series.unique()`: distinct values in first-appearance order (pandas keeps
the first occurrence of each value). -/
def pdUnique {α : Type} [DecidableEq α] (l : List α) : List α :=
  l.foldl (fun acc a => if a ∈ acc then acc else acc ++ [a]) []

lemma pdUnique_go_mem {α : Type} [DecidableEq α] (l acc : List α) (a : α) :
    a ∈ l.foldl (fun acc a => if a ∈ acc then acc else acc ++ [a]) acc ↔
      a ∈ acc ∨ a ∈ l := by
  induction l generalizing acc with
  | nil => simp
  | cons b t ih =>
    by_cases hb : b ∈ acc
    · simp only [List.foldl_cons, if_pos hb, ih, List.mem_cons]
      constructor
      · rintro (h | h)
        · exact Or.inl h
        · exact Or.inr (Or.inr h)
      · rintro (h | h | h)
        · exact Or.inl h
        · exact Or.inl (h ▸ hb)
        · exact Or.inr h
    · simp only [List.foldl_cons, if_neg hb, ih, List.mem_append,
        List.mem_singleton, List.mem_cons]
      tauto

lemma mem_pdUnique {α : Type} [DecidableEq α] (l : List α) (a : α) :
    a ∈ pdUnique l ↔ a ∈ l := by
  unfold pdUnique
  rw [pdUnique_go_mem]
  simp

lemma pdUnique_go_nodup {α : Type} [DecidableEq α] (l : List α) (acc : List α)
    (h : acc.Nodup) :
    (l.foldl (fun acc a => if a ∈ acc then acc else acc ++ [a]) acc).Nodup := by
  induction l generalizing acc with
  | nil => exact h
  | cons b t ih =>
    by_cases hb : b ∈ acc
    · simp only [List.foldl_cons, if_pos hb]
      exact ih acc h
    · simp only [List.foldl_cons, if_neg hb]
      refine ih (acc ++ [b]) ?_
      simp [List.nodup_append, h, hb]

lemma pdUnique_nodup {α : Type} [DecidableEq α] (l : List α) :
    (pdUnique l).Nodup :=
  pdUnique_go_nodup l [] List.nodup_nil

/-- `df['gw'].nunique()` realized as the length of the distinct-gameweek list:
the number of distinct gameweeks present in the whole table. -/
def num_gw (df : Table) : ℕ := (pdUnique (df.map (fun r => r.gw))).length

/-- Per-team season sum of `points` (the `"points": "sum"` aggregation). -/
def sumPoints (df : Table) (name : String) : ℤ :=
  ((teamRows df name).map (fun r => r.points)).sum

/-- Per-team season sum of `hits` (the `"hits": "sum"` aggregation). -/
def sumHits (df : Table) (name : String) : ℤ :=
  ((teamRows df name).map (fun r => r.hits)).sum

/-- `agg["efficiency"] = (agg["points"] - agg["hits"]) / num_gw` where
`num_gw = df["gw"].nunique()` is the season-wide distinct gameweek count,
not the team's own row count. -/
def efficiency (df : Table) (name : String) : ℚ :=
  ((sumPoints df name - sumHits df name : ℤ) : ℚ) / (num_gw df : ℚ)

lemma num_gw_pos (df : Table) (name : String) (h : teamRows df name ≠ []) :
    0 < num_gw df := by
  obtain ⟨r, hr⟩ := List.exists_mem_of_ne_nil _ h
  have hrdf : r ∈ df := List.mem_of_mem_filter hr
  have : r.gw ∈ pdUnique (df.map (fun r => r.gw)) := by
    rw [mem_pdUnique]
    exact List.mem_map_of_mem _ hrdf
  have hne : pdUnique (df.map (fun r => r.gw)) ≠ [] :=
    List.ne_nil_of_mem this
  simpa [num_gw, List.length_pos] using hne

/-- C5: the efficiency identity.  For every table and every team present in it,
`sum(points) - sum(hits) = efficiency * num_gameweeks`, where `num_gameweeks`
is the number of distinct gameweeks in the whole table (not the team's own row
count); the identity therefore also holds for a team with fewer rows than the
season has gameweeks. -/
theorem efficiency_mul_num_gw (df : Table) (name : String)
    (h : teamRows df name ≠ []) :
    ((sumPoints df name - sumHits df name : ℤ) : ℚ) =
      efficiency df name * (num_gw df : ℚ) := by
  have hne : (num_gw df : ℚ) ≠ 0 := by
    have := num_gw_pos df name h
    positivity
  rw [efficiency, div_mul_cancel₀ _ hne]

/-- A season table exercising the efficiency identity: team A has one row while
the table has two distinct gameweeks. -/
def effDf : Table :=
  [⟨1, "A", 50, 3, 0, 1, none, 7, 10, 0⟩,
   ⟨1, "B", 40, 2, 4, 2, none, 8, 9, 0⟩,
   ⟨2, "B", 70, 1, 0, 0, none, 8, 12, 0⟩]

/-- Witness for C5 at a concrete table in which team A misses a gameweek. -/
theorem efficiency_mul_num_gw_witness :
    teamRows effDf "A" ≠ [] ∧
      ((sumPoints effDf "A" - sumHits effDf "A" : ℤ) : ℚ) =
        efficiency effDf "A" * (num_gw effDf : ℚ) :=
  ⟨by decide, efficiency_mul_num_gw effDf "A" (by decide)⟩

/-! ### Record loader (`load_data`) -/

/-- Abstraction of the parsed season CSV as the loader sees it: its column
names and its row count (the loader inspects nothing else before returning). -/
structure CsvFile where
  columns : List String
  numRows : ℕ
deriving DecidableEq

/-- The player-identity mapping file as the loader sees it: present and
parseable, present but unreadable (any exception while loading), or absent. -/
inductive MappingSource where
  | ok (m : List (ℤ × String))
  | unreadable
  | absent
deriving DecidableEq

/-- The three fatal outcomes of `load_data`: `FileNotFoundError` for a missing
season table, `pd.errors.EmptyDataError` for a zero-row table, `ValueError`
for a missing required column. -/
inductive LoadError where
  | missingFile
  | emptyData
  | schemaError
deriving DecidableEq

/-- The `required_columns` set checked by `load_data`. -/
def requiredColumns : List String :=
  ["points", "bench", "hits", "captain_points", "team",
   "chip", "gw", "entry_name", "captain_id", "transfer_gain"]

/-- `load_data`: fails when the season table is absent, empty, or missing a
required column; an absent or unreadable mapping file is swallowed (the
`except` block logs and continues) and yields an empty mapping. -/
def load_data (csv : Option CsvFile) (pm : MappingSource) :
    Except LoadError (CsvFile × List (ℤ × String)) :=
  match csv with
  | none => .error .missingFile
  | some f =>
    if f.numRows = 0 then .error .emptyData
    else if requiredColumns.all (fun c => c ∈ f.columns) then
      .ok (f, match pm with
              | .ok m => m
              | .unreadable => []
              | .absent => [])
    else .error .schemaError

/-- C6: `load_data` errors exactly when the table file is absent, has zero
rows, or misses a required field; and whenever it succeeds with an absent or
unreadable player-mapping file, the returned mapping is empty. -/
theorem load_data_spec (csv : Option CsvFile) (pm : MappingSource) :
    ((load_data csv pm).isOk = false ↔
      csv = none ∨ ∃ f, csv = some f ∧
        (f.numRows = 0 ∨ ∃ c ∈ requiredColumns, c ∉ f.columns)) ∧
    (∀ f, csv = some f → f.numRows ≠ 0 →
      (∀ c ∈ requiredColumns, c ∈ f.columns) →
      (pm = .absent ∨ pm = .unreadable) → load_data csv pm = .ok (f, [])) := by
  constructor
  · match csv with
    | none => simp [load_data, Except.isOk, Except.toBool]
    | some f =>
      by_cases h0 : f.numRows = 0
      · simp [load_data, h0, Except.isOk, Except.toBool]
      · by_cases hall : requiredColumns.all (fun c => c ∈ f.columns)
        · rw [List.all_eq_true] at hall
          simp only [load_data, if_neg h0, if_pos (List.all_eq_true.mpr hall),
            Except.isOk, Except.toBool]
          constructor
          · intro h
            exact absurd h (by simp)
          · rintro (h | ⟨g, hg, hcase⟩)
            · exact absurd h (by simp)
            · obtain rfl : f = g := by injection hg
              rcases hcase with h | ⟨c, hc, hnc⟩
              · exact absurd h h0
              · exact absurd (by simpa using hall c hc) hnc
        · simp only [load_data, if_neg h0, if_neg hall, Except.isOk,
            Except.toBool]
          rw [List.all_eq_true] at hall
          push_neg at hall
          obtain ⟨c, hc, hnc⟩ := hall
          refine ⟨fun _ => Or.inr ⟨f, rfl, Or.inr ⟨c, hc, by simpa using hnc⟩⟩,
            fun _ => by trivial⟩
  · rintro f rfl h0 hcols (rfl | rfl) <;>
      simpa [load_data, h0, List.all_eq_true] using hcols

/-- A well-formed CSV abstraction used to witness the loader contract. -/
def okCsv : CsvFile :=
  ⟨["points", "bench", "hits", "captain_points", "team", "chip", "gw",
    "entry_name", "captain_id", "transfer_gain", "event_transfers"], 3⟩

/-- Witness for C6: the error characterization and the empty-mapping clause,
instantiated at a present well-formed table and an absent mapping file. -/
theorem load_data_spec_witness :
    ((load_data (some okCsv) .absent).isOk = false ↔
      (some okCsv = none) ∨ ∃ f, some okCsv = some f ∧
        (f.numRows = 0 ∨ ∃ c ∈ requiredColumns, c ∉ f.columns)) ∧
      load_data (some okCsv) .absent = .ok (okCsv, []) :=
  ⟨(load_data_spec (some okCsv) .absent).1,
    (load_data_spec (some okCsv) .absent).2 okCsv rfl (by decide) (by decide)
      (Or.inl rfl)⟩

/-! ### Aggregator: the max_bench_points column -/

/-- `groupby("entry_name")` key order: pandas sorts group keys, so an
aggregation over teams yields one value per distinct team, in sorted-name
order. -/
def groupKeys (df : Table) : List String :=
  List.insertionSort (fun a b : String => a ≤ b)
    (pdUnique (df.map (fun r => r.entry_name)))

/-- `df[df["chip"] != "bboost"]`: pandas compares a null (NaN) chip as unequal
to any string, so rows with no chip pass the mask. -/
def nonBboostRows (df : Table) : Table :=
  df.filter (fun r => ¬ r.chip = some "bboost")

/-- `df[df["chip"] != "bboost"].groupby("entry_name")["bench"].sum().values`:
the per-team bench sums of the filtered frame, one entry per distinct team of
the filtered frame, in sorted key order. -/
def maxBenchValues (df : Table) : List ℤ :=
  (groupKeys (nonBboostRows df)).map
    (fun n => (((nonBboostRows df).filter (fun r => r.entry_name = n)).map
      (fun r => r.bench)).sum)

/-- `agg["max_bench_points"] = <values array>`: positional assignment of the
filtered per-team sums onto the aggregate frame, whose rows are the sorted
distinct teams of the full table.  Pandas raises `ValueError` when the array
length differs from the frame length; that outcome is modelled as `none`. -/
def max_bench_points_column (df : Table) : Option (List (String × ℤ)) :=
  if (maxBenchValues df).length = (groupKeys df).length then
    some ((groupKeys df).zip (maxBenchValues df))
  else none

/-- A table in which team B played only bench-boost weeks. -/
def mbDf : Table :=
  [⟨1, "A", 50, 3, 0, 1, none, 7, 10, 0⟩,
   ⟨1, "B", 60, 7, 0, 1, some "bboost", 8, 12, 0⟩]

/-- C4 (code bug evidence): on `mbDf` the filtered per-team sums have one
entry but the aggregate frame has two teams, so the column assignment fails
(`none`), while the claimed per-team value for B is the empty sum 0. -/
theorem max_bench_points_raises :
    max_bench_points_column mbDf = none ∧
      (((nonBboostRows mbDf).filter (fun r => r.entry_name = "B")).map
        (fun r => r.bench)).sum = 0 := by
  constructor
  · have hv : (maxBenchValues mbDf).length = 1 := by
      rw [maxBenchValues, List.length_map, groupKeys, List.length_insertionSort]
      decide
    have hk : (groupKeys mbDf).length = 2 := by
      rw [groupKeys, List.length_insertionSort]
      decide
    have hc : ¬ ((maxBenchValues mbDf).length = (groupKeys mbDf).length) := by
      rw [hv, hk]
      decide
    simp only [max_bench_points_column, if_neg hc]
  · decide

/-! ### What-if scenarios: the best-captain counterfactual -/

/-- Maximum of an integer series (`Series.max`); evaluated by the code only on
nonempty per-gameweek groups. -/
def zmax : List ℤ → ℤ
  | [] => 0
  | h :: t => t.foldl max h

/-- The best-captain counterfactual of `analyze_what_if`.  Note that
`team_df.groupby('gw')['captain_points'].max()` takes the per-gameweek maximum
over the team's own rows (`team_df`), not over the whole table `df`. -/
def points_with_best_captains (df : Table) (name : String) : ℤ :=
  let tdf := teamRows df name
  let actual := (tdf.map (fun r => r.points)).sum
  let maxPerGw := (pdUnique (tdf.map (fun r => r.gw))).map
    (fun g => zmax ((tdf.filter (fun r => r.gw = g)).map
      (fun r => r.captain_points)))
  actual - (tdf.map (fun r => r.captain_points)).sum + maxPerGw.sum

/-- Modelled from the spec side of the claim, for comparison: the same formula
with the per-gameweek maximum taken over every row of the league that week. -/
def spec_points_with_best_captains (df : Table) (name : String) : ℤ :=
  let tdf := teamRows df name
  let actual := (tdf.map (fun r => r.points)).sum
  let maxPerGw := (pdUnique (tdf.map (fun r => r.gw))).map
    (fun g => zmax ((df.filter (fun r => r.gw = g)).map
      (fun r => r.captain_points)))
  actual - (tdf.map (fun r => r.captain_points)).sum + maxPerGw.sum

/-- A table on which another team's captain outscores team A's captain. -/
def wiDf : Table :=
  [⟨1, "A", 50, 3, 0, 1, none, 7, 5, 0⟩,
   ⟨1, "B", 60, 2, 0, 1, none, 8, 10, 0⟩]

/-- C1 (code bug evidence): on `wiDf` the code's counterfactual equals team
A's actual points (50), while the claimed leaguewide-maximum formula gives
55. -/
theorem points_with_best_captains_bug :
    points_with_best_captains wiDf "A" = 50 ∧
      spec_points_with_best_captains wiDf "A" = 55 := by decide

/-! ### League positions -/

/-- `sorted(df['gw'].unique())`. -/
def sortedGws (df : Table) : List ℕ :=
  List.insertionSort (fun a b : ℕ => a ≤ b)
    (pdUnique (df.map (fun r => r.gw)))

/-- One gameweek step of `track_league_positions`.  In the source,
`gw_data['cum_points']` is assigned from
`df[df['gw'] <= gw].groupby('entry_name')['points'].sum()`, a Series indexed
by `entry_name`, while `gw_data` keeps the frame's integer row index; pandas
aligns the assignment on the index, so every row's `cum_points` is NaN.
`sort_values('cum_points', ascending=False)` places the all-NaN rows at the
end in their original relative order, leaving the frame in table order, and
`position` then numbers the rows 1..n in that order.  The recorded positions
are therefore the within-gameweek row order of the table. -/
def positionsAtGw (df : Table) (g : ℕ) : List (String × ℕ) :=
  ((df.filter (fun r => r.gw = g)).map (fun r => r.entry_name)).enum.map
    (fun p => (p.2, p.1 + 1))

/-- The position `track_league_positions` records for `name` at gameweek
`g`. -/
def trackPosition (df : Table) (g : ℕ) (name : String) : Option ℕ :=
  (positionsAtGw df g).lookup name

/-- Cumulative points of a team over gameweeks up to and including `g`. -/
def cumPoints (df : Table) (g : ℕ) (name : String) : ℤ :=
  (((teamRows df name).filter (fun r => r.gw ≤ g)).map (fun r => r.points)).sum

/-- Modelled from the spec side of the claim, for comparison: the rank of
`name` among the teams with a row at gameweek `g` when ordered by cumulative
points to date, descending (rank 1 = highest); on tie-free data this is one
plus the number of strictly better teams. -/
def specRankAtGw (df : Table) (g : ℕ) (name : String) : ℕ :=
  1 + ((pdUnique ((df.filter (fun r => r.gw = g)).map
    (fun r => r.entry_name))).filter
      (fun t => cumPoints df g name < cumPoints df g t)).length

/-- A table whose first gameweek lists the lower-scoring team first. -/
def posDf : Table :=
  [⟨1, "B", 10, 0, 0, 0, none, 1, 1, 0⟩,
   ⟨1, "A", 50, 0, 0, 0, none, 2, 2, 0⟩]

/-- C2 (code bug evidence): on `posDf` the code assigns position 1 to B and 2
to A (the table's row order), while ranking by cumulative points puts A at
rank 1 and B at rank 2. -/
theorem track_league_positions_bug :
    trackPosition posDf 1 "B" = some 1 ∧ trackPosition posDf 1 "A" = some 2 ∧
      specRankAtGw posDf 1 "A" = 1 ∧ specRankAtGw posDf 1 "B" = 2 := by decide

/-! ### Streak analysis -/

/-- `Series.mean()` over rationals.  Pandas yields NaN on an empty series, but
`analyze_streaks` only evaluates the mean at gameweeks that have rows. -/
def qMean (l : List ℚ) : ℚ := l.sum / (l.length : ℚ)

/-- `df.groupby('gw')['points'].mean()` at gameweek `g`: the cross-team mean
of points that week. -/
def avgPointsAt (df : Table) (g : ℕ) : ℚ :=
  qMean ((df.filter (fun r => r.gw = g)).map (fun r => (r.points : ℚ)))

/-- The loop state of `analyze_streaks`: the running `good_streak` maximum,
the running `bad_streak` minimum (most negative), and the signed `current`
counter. -/
structure StreakState where
  good : ℤ
  bad : ℤ
  current : ℤ
deriving DecidableEq

/-- One gameweek step of the `analyze_streaks` scan; `above` is the comparison
`points > avg_points[gw]`.  Above the mean: `current` extends (or resets to 1)
and `good_streak` takes the maximum; otherwise `current` extends negative (or
resets to -1) and `bad_streak` takes the minimum. -/
def streakStep (above : Bool) (s : StreakState) : StreakState :=
  match above with
  | true =>
    ⟨max s.good (if 0 ≤ s.current then s.current + 1 else 1), s.bad,
      if 0 ≤ s.current then s.current + 1 else 1⟩
  | false =>
    ⟨s.good, min s.bad (if s.current ≤ 0 then s.current - 1 else -1),
      if s.current ≤ 0 then s.current - 1 else -1⟩

/-- The comparison driving the scan for team `name` at gameweek `g`:
`team_df[team_df['gw'] == gw]['points'].iloc[0] > avg_points[gw]`. -/
def streakAbove (df : Table) (name : String) (g : ℕ) : Bool :=
  decide (((((teamRows df name).filter (fun r => r.gw = g)).map
    (fun r => r.points)).headD 0 : ℚ) > avgPointsAt df g)

/-- The `analyze_streaks` scan over one team's sorted gameweeks. -/
def streakFold (df : Table) (name : String) : StreakState :=
  (sortedGws (teamRows df name)).foldl
    (fun s g => streakStep (streakAbove df name g) s) ⟨0, 0, 0⟩

/-- The row `analyze_streaks` records for one team:
`(longest_good_streak, longest_bad_streak, current_streak)`; the source
finishes with `max(max_good, good_streak)` and `max(max_bad, abs(bad_streak))`
where `max_good = max_bad = 0`. -/
def analyze_streaks_team (df : Table) (name : String) : ℤ × ℤ × ℤ :=
  (max 0 (streakFold df name).good, max 0 |(streakFold df name).bad|,
    (streakFold df name).current)

/-- The loop invariant of the streak scan. -/
def StreakInv (s : StreakState) : Prop :=
  0 ≤ s.good ∧ s.bad ≤ 0 ∧ (0 < s.current → s.current ≤ s.good) ∧
    (s.current < 0 → s.bad ≤ s.current)

lemma streakStep_inv (b : Bool) (s : StreakState) (h : StreakInv s) :
    StreakInv (streakStep b s) ∧ (streakStep b s).current ≠ 0 := by
  obtain ⟨hg, hb, hcg, hcb⟩ := h
  cases b <;>
    · simp only [streakStep, StreakInv]
      constructor
      · refine ⟨?_, ?_, ?_, ?_⟩ <;> intros <;>
          (try simp only [max_def, min_def] at *) <;>
          (try split_ifs at *) <;> omega
      · split_ifs <;> omega

lemma foldl_streakStep_inv {α : Type} (f : α → Bool) (l : List α)
    (s : StreakState) (h : StreakInv s) :
    StreakInv (l.foldl (fun s a => streakStep (f a) s) s) := by
  induction l generalizing s with
  | nil => exact h
  | cons a t ih => exact ih _ ((streakStep_inv (f a) s h).1)

lemma foldl_streakStep_current_ne {α : Type} (f : α → Bool) (l : List α)
    (s : StreakState) (h : StreakInv s) (hl : l ≠ []) :
    (l.foldl (fun s a => streakStep (f a) s) s).current ≠ 0 := by
  induction l generalizing s with
  | nil => exact absurd rfl hl
  | cons a t ih =>
    by_cases ht : t = []
    · subst ht
      exact (streakStep_inv (f a) s h).2
    · exact ih _ ((streakStep_inv (f a) s h).1) ht

lemma sortedGws_ne_nil (df : Table) (name : String)
    (h : teamRows df name ≠ []) : sortedGws (teamRows df name) ≠ [] := by
  obtain ⟨r, hr⟩ := List.exists_mem_of_ne_nil _ h
  have hmem : r.gw ∈ pdUnique ((teamRows df name).map (fun r => r.gw)) := by
    rw [mem_pdUnique]
    exact List.mem_map_of_mem _ hr
  have hlen : 0 < (sortedGws (teamRows df name)).length := by
    rw [sortedGws, List.length_insertionSort]
    exact List.length_pos.mpr (List.ne_nil_of_mem hmem)
  exact List.length_pos.mp hlen

/-- C10: for every team with at least one row, the streak scan ends with a
nonzero current streak, nonnegative recorded maxima, and a current run bounded
by the recorded maximum of its own sign. -/
theorem analyze_streaks_invariants (df : Table) (name : String)
    (h : teamRows df name ≠ []) :
    (analyze_streaks_team df name).2.2 ≠ 0 ∧
      0 ≤ (analyze_streaks_team df name).1 ∧
      0 ≤ (analyze_streaks_team df name).2.1 ∧
      (0 < (analyze_streaks_team df name).2.2 →
        (analyze_streaks_team df name).2.2 ≤
          (analyze_streaks_team df name).1) ∧
      ((analyze_streaks_team df name).2.2 < 0 →
        -(analyze_streaks_team df name).2.2 ≤
          (analyze_streaks_team df name).2.1) := by
  have hinit : StreakInv ⟨0, 0, 0⟩ :=
    ⟨le_refl 0, le_refl 0, fun hc => absurd hc (by decide),
      fun hc => absurd hc (by decide)⟩
  have hinv : StreakInv (streakFold df name) :=
    foldl_streakStep_inv (streakAbove df name) _ _ hinit
  have hne : (streakFold df name).current ≠ 0 :=
    foldl_streakStep_current_ne (streakAbove df name) _ _ hinit
      (sortedGws_ne_nil df name h)
  obtain ⟨hg, hb, hcg, hcb⟩ := hinv
  simp only [analyze_streaks_team]
  refine ⟨hne, le_max_left _ _, le_max_left _ _, ?_, ?_⟩
  · intro hc
    exact le_trans (hcg hc) (le_max_right _ _)
  · intro hc
    have h1 : (streakFold df name).bad ≤ (streakFold df name).current := hcb hc
    have h2 : -(streakFold df name).current ≤ |(streakFold df name).bad| := by
      rw [abs_of_nonpos hb]
      omega
    exact le_trans h2 (le_max_right _ _)

/-- Witness for C10 at a concrete three-row table. -/
theorem analyze_streaks_invariants_witness :
    teamRows effDf "B" ≠ [] ∧
      ((analyze_streaks_team effDf "B").2.2 ≠ 0 ∧
        0 ≤ (analyze_streaks_team effDf "B").1 ∧
        0 ≤ (analyze_streaks_team effDf "B").2.1 ∧
        (0 < (analyze_streaks_team effDf "B").2.2 →
          (analyze_streaks_team effDf "B").2.2 ≤
            (analyze_streaks_team effDf "B").1) ∧
        ((analyze_streaks_team effDf "B").2.2 < 0 →
          -(analyze_streaks_team effDf "B").2.2 ≤
            (analyze_streaks_team effDf "B").2.1)) :=
  ⟨by decide, analyze_streaks_invariants effDf "B" (by decide)⟩

/-! ### Head-to-head -/

/-- `pd.merge(team1[['gw', 'points']], team2[['gw', 'points']], on='gw')`:
inner join on gameweek, one merged row per matching pair of rows, in left-row
order. -/
def mergedPoints (t1 t2 : Table) : List (ℤ × ℤ) :=
  t1.flatMap (fun r1 => (t2.filter (fun r2 => r2.gw = r1.gw)).map
    (fun r2 => (r1.points, r2.points)))

/-- `wins_1` and `wins_2` of `analyze_h2h`: counts of merged rows in which
each side strictly outscored the other (ties count for neither). -/
def h2hWins (df : Table) (a b : String) : ℕ × ℕ :=
  ((mergedPoints (teamRows df a) (teamRows df b)).countP (fun p => p.2 < p.1),
   (mergedPoints (teamRows df a) (teamRows df b)).countP (fun p => p.1 < p.2))

/-- The two matrix cells `plot_h2h_matrix` writes for a pair of teams: when
`total_games = wins_1 + wins_2 > 0`, cell (i, j) gets
`wins_1 / (wins_1 + wins_2)` and cell (j, i) gets one minus that; otherwise
both keep the matrix's initial zero. -/
def h2hCells (df : Table) (a b : String) : ℚ × ℚ :=
  if 0 < (h2hWins df a b).1 + (h2hWins df a b).2 then
    (((h2hWins df a b).1 : ℚ) /
        (((h2hWins df a b).1 : ℚ) + ((h2hWins df a b).2 : ℚ)),
      1 - ((h2hWins df a b).1 : ℚ) /
        (((h2hWins df a b).1 : ℚ) + ((h2hWins df a b).2 : ℚ)))
  else (0, 0)

/-- The gameweeks at which both teams have a row. -/
def sharedGws (df : Table) (a b : String) : List ℕ :=
  (pdUnique (df.map (fun r => r.gw))).filter
    (fun g => (teamRows df a).any (fun r => r.gw = g) &&
      (teamRows df b).any (fun r => r.gw = g))

lemma countP_both_le_length (m : List (ℤ × ℤ)) :
    m.countP (fun p => p.2 < p.1) + m.countP (fun p => p.1 < p.2) ≤
      m.length := by
  induction m with
  | nil => simp
  | cons p t ih =>
    simp only [List.countP_cons, List.length_cons]
    by_cases h1 : p.2 < p.1 <;> by_cases h2 : p.1 < p.2 <;>
      simp [h1, h2] <;> omega

lemma filter_gw_length_le_one (t : Table) (g : ℕ)
    (h : (t.map (fun r => r.gw)).Nodup) :
    (t.filter (fun r => r.gw = g)).length ≤ 1 := by
  induction t with
  | nil => simp
  | cons r t ih =>
    simp only [List.map_cons, List.nodup_cons] at h
    obtain ⟨hr, ht⟩ := h
    by_cases hg : r.gw = g
    · have hnil : t.filter (fun x => x.gw = g) = [] := by
        rw [List.filter_eq_nil_iff]
        intro x hx
        simp only [decide_eq_true_eq]
        intro hxg
        apply hr
        rw [hg, ← hxg]
        exact List.mem_map_of_mem _ hx
      simp [List.filter_cons, hg, hnil]
    · simp only [List.filter_cons, decide_eq_true_eq, if_neg hg]
      exact ih ht

lemma filter_gw_nil_of_not_any (t : Table) (g : ℕ)
    (h : t.any (fun r => r.gw = g) = false) :
    t.filter (fun r => r.gw = g) = [] := by
  rw [List.filter_eq_nil_iff]
  intro x hx
  simp only [List.any_eq_false] at h
  exact h x hx

lemma mergedPoints_length_le (t1 t2 : Table)
    (h2 : (t2.map (fun r => r.gw)).Nodup) :
    (mergedPoints t1 t2).length ≤
      ((t1.map (fun r => r.gw)).filter
        (fun g => t2.any (fun r => r.gw = g))).length := by
  induction t1 with
  | nil => simp [mergedPoints]
  | cons r1 t ih =>
    have hstep : (mergedPoints (r1 :: t) t2).length =
        (t2.filter (fun r2 => r2.gw = r1.gw)).length +
          (mergedPoints t t2).length := by
      simp [mergedPoints]
    by_cases hany : t2.any (fun r => r.gw = r1.gw)
    · have hfil : ((r1 :: t).map (fun r => r.gw)).filter
          (fun g => t2.any (fun r => r.gw = g)) =
          r1.gw :: ((t.map (fun r => r.gw)).filter
            (fun g => t2.any (fun r => r.gw = g))) := by
        simp [List.filter_cons, hany]
      have hle1 := filter_gw_length_le_one t2 r1.gw h2
      rw [hstep, hfil, List.length_cons]
      omega
    · have hnil : t2.filter (fun r2 => r2.gw = r1.gw) = [] :=
        filter_gw_nil_of_not_any t2 r1.gw (by simpa using hany)
      have hfil : ((r1 :: t).map (fun r => r.gw)).filter
          (fun g => t2.any (fun r => r.gw = g)) =
          (t.map (fun r => r.gw)).filter
            (fun g => t2.any (fun r => r.gw = g)) := by
        simp [List.filter_cons, hany]
      rw [hstep, hnil, hfil]
      simpa using ih

lemma nodup_subset_length_le {α : Type} (l1 l2 : List α) (h1 : l1.Nodup)
    (hsub : l1 ⊆ l2) : l1.length ≤ l2.length :=
  (List.subperm_of_subset h1 hsub).length_le

lemma shared_filter_le (df : Table) (a b : String)
    (ha : ((teamRows df a).map (fun r => r.gw)).Nodup) :
    (((teamRows df a).map (fun r => r.gw)).filter
      (fun g => (teamRows df b).any (fun r => r.gw = g))).length ≤
      (sharedGws df a b).length := by
  apply nodup_subset_length_le
  · exact ha.filter _
  · intro g hg
    simp only [List.mem_filter] at hg
    obtain ⟨hmem, hany⟩ := hg
    obtain ⟨r, hr, hrg⟩ := List.mem_map.mp hmem
    simp only [sharedGws, List.mem_filter, Bool.and_eq_true]
    refine ⟨?_, ?_, hany⟩
    · rw [mem_pdUnique]
      exact List.mem_map.mpr ⟨r, List.mem_of_mem_filter hr, hrg⟩
    · simp only [List.any_eq_true]
      exact ⟨r, hr, by simpa using hrg⟩

/-- C8: for every pair of teams with a decisive shared gameweek, the two
matrix cells written for the pair sum to 1, and (given the per-team
no-duplicate-gameweek invariant) `wins_1 + wins_2` is at most the number of
gameweeks the two teams share. -/
theorem h2h_cells_spec (df : Table) (a b : String)
    (hd : ∃ p ∈ mergedPoints (teamRows df a) (teamRows df b), p.1 ≠ p.2)
    (ha : ((teamRows df a).map (fun r => r.gw)).Nodup)
    (hb : ((teamRows df b).map (fun r => r.gw)).Nodup) :
    (h2hCells df a b).1 + (h2hCells df a b).2 = 1 ∧
      (h2hWins df a b).1 + (h2hWins df a b).2 ≤ (sharedGws df a b).length := by
  have hpos : 0 < (h2hWins df a b).1 + (h2hWins df a b).2 := by
    obtain ⟨p, hp, hne⟩ := hd
    rcases lt_or_gt_of_ne hne with hlt | hgt
    · have : 0 < (mergedPoints (teamRows df a) (teamRows df b)).countP
          (fun p => p.1 < p.2) :=
        List.countP_pos_iff.mpr ⟨p, hp, by simpa using hlt⟩
      simp only [h2hWins]
      omega
    · have : 0 < (mergedPoints (teamRows df a) (teamRows df b)).countP
          (fun p => p.2 < p.1) :=
        List.countP_pos_iff.mpr ⟨p, hp, by simpa using hgt⟩
      simp only [h2hWins]
      omega
  constructor
  · simp only [h2hCells, if_pos hpos]
    ring
  · calc (h2hWins df a b).1 + (h2hWins df a b).2
        ≤ (mergedPoints (teamRows df a) (teamRows df b)).length :=
          countP_both_le_length _
      _ ≤ (((teamRows df a).map (fun r => r.gw)).filter
            (fun g => (teamRows df b).any (fun r => r.gw = g))).length :=
          mergedPoints_length_le _ _ hb
      _ ≤ (sharedGws df a b).length := shared_filter_le df a b ha

/-- Witness for C8 at a concrete table with one decisive shared gameweek. -/
theorem h2h_cells_spec_witness :
    (∃ p ∈ mergedPoints (teamRows wiDf "A") (teamRows wiDf "B"),
        p.1 ≠ p.2) ∧
      ((h2hCells wiDf "A" "B").1 + (h2hCells wiDf "A" "B").2 = 1 ∧
        (h2hWins wiDf "A" "B").1 + (h2hWins wiDf "A" "B").2 ≤
          (sharedGws wiDf "A" "B").length) :=
  ⟨by decide, h2h_cells_spec wiDf "A" "B" (by decide) (by decide) (by decide)⟩

/-! ### Float special values

The forecaster and the chip-timing means can produce NaN and infinities.
Finite values are kept exact as rationals: no claim settled here depends on
rounding, only on the special-value propagation below. -/

/-- A float value: NaN, a signed infinity, or a finite value. -/
inductive PyFloat where
  | nan
  | pinf
  | ninf
  | fin (q : ℚ)
deriving DecidableEq

/-- Float `<`: any comparison against NaN is false. -/
def PyFloat.lt : PyFloat → PyFloat → Bool
  | .fin a, .fin b => a < b
  | .fin _, .pinf => true
  | .ninf, .fin _ => true
  | .ninf, .pinf => true
  | _, _ => false

/-- Python's builtin `max(a, b)`: keeps `a` unless `b` compares strictly
greater, so a NaN first argument propagates. -/
def pyMax (a b : PyFloat) : PyFloat := if PyFloat.lt a b then b else a

/-- Python's builtin `min(a, b)`: keeps `a` unless `b` compares strictly
smaller, so a NaN first argument propagates. -/
def pyMin (a b : PyFloat) : PyFloat := if PyFloat.lt b a then b else a

/-- IEEE subtraction on the modelled values. -/
def PyFloat.sub : PyFloat → PyFloat → PyFloat
  | .fin a, .fin b => .fin (a - b)
  | .fin _, .pinf => .ninf
  | .fin _, .ninf => .pinf
  | .pinf, .fin _ => .pinf
  | .ninf, .fin _ => .ninf
  | .pinf, .ninf => .pinf
  | .ninf, .pinf => .ninf
  | _, _ => .nan

/-- IEEE multiplication on the modelled values. -/
def PyFloat.mul : PyFloat → PyFloat → PyFloat
  | .fin a, .fin b => .fin (a * b)
  | .fin a, .pinf => if 0 < a then .pinf else if a < 0 then .ninf else .nan
  | .pinf, .fin b => if 0 < b then .pinf else if b < 0 then .ninf else .nan
  | .fin a, .ninf => if 0 < a then .ninf else if a < 0 then .pinf else .nan
  | .ninf, .fin b => if 0 < b then .ninf else if b < 0 then .pinf else .nan
  | .pinf, .pinf => .pinf
  | .ninf, .ninf => .pinf
  | .pinf, .ninf => .ninf
  | .ninf, .pinf => .ninf
  | _, _ => .nan

/-- IEEE (numpy) division on the modelled values.  Division by a (positive)
float zero yields a signed infinity, and 0/0 yields NaN. -/
def PyFloat.div : PyFloat → PyFloat → PyFloat
  | .fin a, .fin b =>
    if b = 0 then (if 0 < a then .pinf else if a < 0 then .ninf else .nan)
    else .fin (a / b)
  | .fin _, .pinf => .fin 0
  | .fin _, .ninf => .fin 0
  | .pinf, .fin b => if 0 ≤ b then .pinf else .ninf
  | .ninf, .fin b => if 0 ≤ b then .ninf else .pinf
  | _, _ => .nan

/-- `Series.mean()`: NaN on an empty series, the exact mean otherwise. -/
def pdMean (l : List ℚ) : PyFloat :=
  if l.length = 0 then .nan else .fin (l.sum / (l.length : ℚ))

/-! ### Chip timing -/

/-- One output row of `analyze_chip_timing`. -/
structure ChipRow where
  chip : String
  avg_points_early : PyFloat
  avg_points_late : PyFloat
  best_gw : ℕ
deriving DecidableEq

/-- `chip_df.loc[chip_df['points'].idxmax()]`: the first row achieving the
maximal points (`idxmax` returns the first maximizing label); `none` on an
empty frame. -/
def idxmaxByPoints : Table → Option Row
  | [] => none
  | r :: rs =>
    some (rs.foldl (fun best x => if best.points < x.points then x else best) r)

/-- The chip whitelist hard-coded in `analyze_chip_timing`'s loop.  The
`manager` chip (and any other chip value) is not in it. -/
def chipList : List String :=
  ["3xc", "bboost", "freehit", "wildcard1", "wildcard2"]

/-- The loop body of `analyze_chip_timing` for one chip name: skip
(`continue`) when the chip has no usage rows, otherwise report the early
(gw ≤ 19) and late (gw > 19) mean points and the first best-scoring usage
gameweek. -/
def chipTimingRow (df : Table) (c : String) : Option ChipRow :=
  match idxmaxByPoints (df.filter (fun r => r.chip = some c)) with
  | none => none
  | some r => some ⟨c,
      pdMean (((df.filter (fun r => r.chip = some c)).filter
        (fun x => x.gw ≤ 19)).map (fun x => (x.points : ℚ))),
      pdMean (((df.filter (fun r => r.chip = some c)).filter
        (fun x => 19 < x.gw)).map (fun x => (x.points : ℚ))),
      r.gw⟩

/-- `analyze_chip_timing`: the rows collected over the chip whitelist. -/
def analyze_chip_timing (df : Table) : List ChipRow :=
  chipList.filterMap (chipTimingRow df)

lemma foldl_maxRow_mem (rs : List Row) (a : Row) :
    rs.foldl (fun best x => if best.points < x.points then x else best) a = a ∨
      rs.foldl (fun best x => if best.points < x.points then x else best) a
        ∈ rs := by
  induction rs generalizing a with
  | nil => exact Or.inl rfl
  | cons x t ih =>
    simp only [List.foldl_cons]
    rcases ih (if a.points < x.points then x else a) with h | h
    · rw [h]
      by_cases hx : a.points < x.points
      · simp only [if_pos hx]
        exact Or.inr (List.mem_cons_self x t)
      · simp only [if_neg hx]
        exact Or.inl trivial
    · exact Or.inr (List.mem_cons_of_mem x h)

lemma foldl_maxRow_ge (rs : List Row) (a : Row) :
    a.points ≤
        (rs.foldl (fun best x => if best.points < x.points then x else best)
          a).points ∧
      ∀ y ∈ rs, y.points ≤
        (rs.foldl (fun best x => if best.points < x.points then x else best)
          a).points := by
  induction rs generalizing a with
  | nil => exact ⟨le_refl _, by simp⟩
  | cons x t ih =>
    simp only [List.foldl_cons]
    obtain ⟨h1, h2⟩ := ih (if a.points < x.points then x else a)
    constructor
    · refine le_trans ?_ h1
      by_cases hx : a.points < x.points
      · simp only [if_pos hx]
        omega
      · simp only [if_neg hx]
        exact le_refl _
    · intro y hy
      rcases List.mem_cons.mp hy with rfl | hyt
      · refine le_trans ?_ h1
        by_cases hx : a.points < y.points
        · simp only [if_pos hx]
          exact le_refl _
        · simp only [if_neg hx]
          omega
      · exact h2 y hyt

lemma idxmaxByPoints_spec (t : Table) (r : Row)
    (h : idxmaxByPoints t = some r) :
    r ∈ t ∧ ∀ x ∈ t, x.points ≤ r.points := by
  match t with
  | [] => exact absurd h (by simp [idxmaxByPoints])
  | a :: rs =>
    simp only [idxmaxByPoints, Option.some.injEq] at h
    subst h
    constructor
    · rcases foldl_maxRow_mem rs a with h | h
      · rw [h]
        exact List.mem_cons_self a rs
      · exact List.mem_cons_of_mem a h
    · intro x hx
      obtain ⟨h1, h2⟩ := foldl_maxRow_ge rs a
      rcases List.mem_cons.mp hx with rfl | hxt
      · exact h1
      · exact h2 x hxt

lemma idxmaxByPoints_none_iff (t : Table) :
    idxmaxByPoints t = none ↔ t = [] := by
  cases t <;> simp [idxmaxByPoints]

lemma chipTimingRow_some_spec (df : Table) (c : String) (row : ChipRow)
    (h : chipTimingRow df c = some row) :
    row.chip = c ∧ ∃ r ∈ df, r.chip = some c ∧ r.gw = row.best_gw ∧
      ∀ x ∈ df, x.chip = some c → x.points ≤ r.points := by
  unfold chipTimingRow at h
  cases hm : idxmaxByPoints (df.filter (fun r => r.chip = some c)) with
  | none => rw [hm] at h; exact absurd h (by simp)
  | some r =>
    rw [hm] at h
    obtain ⟨hmem, hmax⟩ := idxmaxByPoints_spec _ r hm
    have hrdf : r ∈ df := List.mem_of_mem_filter hmem
    have hrchip : r.chip = some c := by
      have := List.of_mem_filter hmem
      simpa using this
    obtain rfl : (⟨c, _, _, r.gw⟩ : ChipRow) = row := by
      injection h
    refine ⟨rfl, r, hrdf, hrchip, rfl, ?_⟩
    intro x hx hxc
    exact hmax x (List.mem_filter.mpr ⟨hx, by simpa using hxc⟩)

lemma chipTimingRow_isSome_of_used (df : Table) (c : String)
    (h : df.any (fun r => r.chip = some c) = true) :
    ∃ row, chipTimingRow df c = some row := by
  obtain ⟨r, hr, hrc⟩ := List.any_eq_true.mp h
  have hne : df.filter (fun r => r.chip = some c) ≠ [] :=
    List.ne_nil_of_mem (List.mem_filter.mpr ⟨hr, hrc⟩)
  unfold chipTimingRow
  cases hm : idxmaxByPoints (df.filter (fun r => r.chip = some c)) with
  | none => exact absurd ((idxmaxByPoints_none_iff _).mp hm) hne
  | some r0 => exact ⟨_, rfl⟩

/-- C7 counterexample input: the only chip used in the table is `manager`. -/
def mgrDf : Table := [⟨1, "A", 50, 3, 0, 1, some "manager", 7, 10, 0⟩]

/-- C7 counterexample: the `manager` chip appears in the records, yet the
chip-timing table has no row at all, refuting the claimed
"row if and only if the chip appears at least once". -/
theorem analyze_chip_timing_counterexample :
    mgrDf.any (fun r => r.chip = some "manager") = true ∧
      analyze_chip_timing mgrDf = [] := by decide

/-- C7 amended: the chip-timing table has a row for chip `c` iff `c` is one of
the five whitelisted chips and appears at least once in the records; and every
row's `best_gw` is a gameweek in which its chip was used whose points are
maximal among that chip's usage rows. -/
theorem analyze_chip_timing_amended (df : Table) (c : String) :
    ((analyze_chip_timing df).any (fun row => row.chip = c) = true ↔
      c ∈ chipList ∧ df.any (fun r => r.chip = some c) = true) ∧
    (∀ row ∈ analyze_chip_timing df, ∃ r ∈ df,
      r.chip = some row.chip ∧ r.gw = row.best_gw ∧
        ∀ x ∈ df, x.chip = some row.chip → x.points ≤ r.points) := by
  constructor
  · constructor
    · intro h
      obtain ⟨row, hrow, hrc⟩ := List.any_eq_true.mp h
      obtain ⟨c0, hc0, hsome⟩ := List.mem_filterMap.mp hrow
      obtain ⟨hchip, r, hrdf, hrchip, _, _⟩ :=
        chipTimingRow_some_spec df c0 row hsome
      have hcc : c0 = c := by
        rw [← hchip]
        simpa using hrc
      subst hcc
      exact ⟨hc0, List.any_eq_true.mpr ⟨r, hrdf, by simpa using hrchip⟩⟩
    · rintro ⟨hc, hused⟩
      obtain ⟨row, hrow⟩ := chipTimingRow_isSome_of_used df c hused
      have hchip := (chipTimingRow_some_spec df c row hrow).1
      refine List.any_eq_true.mpr ⟨row, List.mem_filterMap.mpr ⟨c, hc, hrow⟩,
        by simpa using hchip⟩
  · intro row hrow
    obtain ⟨c0, hc0, hsome⟩ := List.mem_filterMap.mp hrow
    obtain ⟨hchip, r, hrdf, hrchip, hgw, hmax⟩ :=
      chipTimingRow_some_spec df c0 row hsome
    subst hchip
    exact ⟨r, hrdf, hrchip, hgw, hmax⟩

/-- Witness for C7's amended theorem: on `effDf` with an unused whitelisted
chip, the equivalence yields that no row is produced. -/
theorem analyze_chip_timing_amended_witness :
    ¬ ((analyze_chip_timing effDf).any
      (fun row => row.chip = "freehit") = true) := by
  intro h
  have := ((analyze_chip_timing_amended effDf "freehit").1.mp h).2
  exact absurd this (by decide)

/-! ### Team correlation -/

/-- The first row of a frame at gameweek `g` (`.iloc[0]` after the mask). -/
def firstRowAt (t : Table) (g : ℕ) : Option Row :=
  (t.filter (fun r => r.gw = g)).head?

/-- The captain test of the correlation loop at one gameweek:
`t1_gw['captain_id'].iloc[0] == t2_gw['captain_id'].iloc[0]`; the loop
`continue`s (yielding no count) when either team has no row that week. -/
def captainSameAt (df : Table) (t1 t2 : String) (g : ℕ) : Bool :=
  match firstRowAt (teamRows df t1) g, firstRowAt (teamRows df t2) g with
  | some r1, some r2 => r1.captain_id = r2.captain_id
  | _, _ => false

/-- The chip test of the correlation loop at one gameweek:
`t1_chip == t2_chip and t1_chip`.  A null (NaN) chip compares unequal even to
another null, and an empty-string chip fails the final truthiness test, so
the test holds exactly for two equal non-empty chip strings. -/
def chipSameAt (df : Table) (t1 t2 : String) (g : ℕ) : Bool :=
  match firstRowAt (teamRows df t1) g, firstRowAt (teamRows df t2) g with
  | some r1, some r2 =>
    match r1.chip, r2.chip with
    | some x, some y => x = y && x ≠ ""
    | _, _ => false
  | _, _ => false

/-- The counter loop of `analyze_team_correlation` for one pair of teams:
fold over `df['gw'].unique()` accumulating `captain_same_gws` and
`chip_same_gws` (the skip of gameweeks either team misses is embedded in the
two per-gameweek tests). -/
def correlationCounts (df : Table) (t1 t2 : String) : ℕ × ℕ :=
  (pdUnique (df.map (fun r => r.gw))).foldl
    (fun acc g =>
      ((if captainSameAt df t1 t2 g then acc.1 + 1 else acc.1),
       (if chipSameAt df t1 t2 g then acc.2 + 1 else acc.2)))
    (0, 0)

/-- `captain_similarity`: `captain_same_gws / len(df['gw'].unique())`, the
distinct gameweek count of the whole table. -/
def captain_similarity (df : Table) (t1 t2 : String) : ℚ :=
  ((correlationCounts df t1 t2).1 : ℚ) /
    ((pdUnique (df.map (fun r => r.gw))).length : ℚ)

/-- `chip_similarity`: `chip_same_gws / max(1, len(df[df['chip'] != '']))`.
The divisor counts the rows of the whole table whose chip differs from the
empty string; a null (NaN) chip compares unequal to `''` and so passes this
mask too. -/
def chip_similarity (df : Table) (t1 t2 : String) : ℚ :=
  ((correlationCounts df t1 t2).2 : ℚ) /
    ((max 1 (df.filter (fun r => ¬ r.chip = some "")).length : ℕ) : ℚ)

/-- Modelled from the spec side of the claim, for comparison: the same-captain
count as a fraction of the gameweeks the two teams share. -/
def spec_captain_similarity (df : Table) (t1 t2 : String) : ℚ :=
  (((sharedGws df t1 t2).countP (captainSameAt df t1 t2)) : ℚ) /
    ((sharedGws df t1 t2).length : ℚ)

/-- Modelled from the spec side of the claim, for comparison: the
same-non-null-chip count as a fraction of the gameweeks the two teams
share. -/
def spec_chip_similarity (df : Table) (t1 t2 : String) : ℚ :=
  (((sharedGws df t1 t2).countP (chipSameAt df t1 t2)) : ℚ) /
    ((sharedGws df t1 t2).length : ℚ)

/-- C3 counterexample input: team A plays gameweeks 1 and 2, team B only
gameweek 1; in the shared week both captain and chip agree. -/
def corrDf : Table :=
  [⟨1, "A", 50, 0, 0, 0, some "3xc", 7, 10, 0⟩,
   ⟨2, "A", 40, 0, 0, 0, none, 7, 8, 0⟩,
   ⟨1, "B", 60, 0, 0, 0, some "3xc", 7, 12, 0⟩]

/-- C3 counterexample: on `corrDf` both similarities as claimed (fractions of
the single shared gameweek) are 1, but the code divides the captain count by
the table's distinct gameweek count (2) and the chip count by the number of
rows whose chip is not the empty string (3). -/
theorem team_correlation_counterexample :
    captain_similarity corrDf "A" "B" = 1 / 2 ∧
      spec_captain_similarity corrDf "A" "B" = 1 ∧
      chip_similarity corrDf "A" "B" = 1 / 3 ∧
      spec_chip_similarity corrDf "A" "B" = 1 := by
  have hc1 : (correlationCounts corrDf "A" "B").1 = 1 := by decide
  have hc2 : (correlationCounts corrDf "A" "B").2 = 1 := by decide
  have hg : (pdUnique (corrDf.map (fun r => r.gw))).length = 2 := by decide
  have hs1 : (sharedGws corrDf "A" "B").countP
      (captainSameAt corrDf "A" "B") = 1 := by decide
  have hs2 : (sharedGws corrDf "A" "B").countP
      (chipSameAt corrDf "A" "B") = 1 := by decide
  have hsl : (sharedGws corrDf "A" "B").length = 1 := by decide
  have hch : (corrDf.filter (fun r => ¬ r.chip = some "")).length = 3 := by
    decide
  refine ⟨?_, ?_, ?_, ?_⟩
  · rw [captain_similarity, hc1, hg]
    norm_num
  · rw [spec_captain_similarity, hs1, hsl]
    norm_num
  · rw [chip_similarity, hc2, hch]
    norm_num
  · rw [spec_chip_similarity, hs2, hsl]
    norm_num

lemma correlationCounts_go (df : Table) (t1 t2 : String) (l : List ℕ)
    (a b : ℕ) :
    l.foldl (fun acc g =>
        ((if captainSameAt df t1 t2 g then acc.1 + 1 else acc.1),
         (if chipSameAt df t1 t2 g then acc.2 + 1 else acc.2))) (a, b) =
      (a + l.countP (captainSameAt df t1 t2),
       b + l.countP (chipSameAt df t1 t2)) := by
  induction l generalizing a b with
  | nil => simp
  | cons g t ih =>
    simp only [List.foldl_cons, List.countP_cons]
    rw [ih]
    by_cases h1 : captainSameAt df t1 t2 g <;>
      by_cases h2 : chipSameAt df t1 t2 g <;>
        simp [h1, h2, Prod.ext_iff] <;> omega

lemma head?_mem_of_eq_some {α : Type} {l : List α} {a : α}
    (h : l.head? = some a) : a ∈ l := by
  cases l with
  | nil => exact absurd h (by simp)
  | cons x t =>
    simp only [List.head?_cons, Option.some.injEq] at h
    exact h ▸ List.mem_cons_self x t

lemma firstRowAt_some_present (t : Table) (g : ℕ) (r : Row)
    (h : firstRowAt t g = some r) : t.any (fun x => x.gw = g) = true := by
  have hmem := head?_mem_of_eq_some h
  have := List.mem_filter.mp hmem
  exact List.any_eq_true.mpr ⟨r, this.1, this.2⟩

lemma captainSameAt_present (df : Table) (t1 t2 : String) (g : ℕ)
    (h : captainSameAt df t1 t2 g = true) :
    ((teamRows df t1).any (fun r => r.gw = g) &&
      (teamRows df t2).any (fun r => r.gw = g)) = true := by
  unfold captainSameAt at h
  cases h1 : firstRowAt (teamRows df t1) g with
  | none => rw [h1] at h; exact absurd h (by simp)
  | some r1 =>
    cases h2 : firstRowAt (teamRows df t2) g with
    | none => rw [h1, h2] at h; exact absurd h (by simp)
    | some r2 =>
      rw [firstRowAt_some_present _ _ _ h1, firstRowAt_some_present _ _ _ h2]
      rfl

lemma chipSameAt_present (df : Table) (t1 t2 : String) (g : ℕ)
    (h : chipSameAt df t1 t2 g = true) :
    ((teamRows df t1).any (fun r => r.gw = g) &&
      (teamRows df t2).any (fun r => r.gw = g)) = true := by
  unfold chipSameAt at h
  cases h1 : firstRowAt (teamRows df t1) g with
  | none => rw [h1] at h; exact absurd h (by simp)
  | some r1 =>
    cases h2 : firstRowAt (teamRows df t2) g with
    | none => rw [h1, h2] at h; exact absurd h (by simp)
    | some r2 =>
      rw [firstRowAt_some_present _ _ _ h1, firstRowAt_some_present _ _ _ h2]
      rfl

lemma countP_eq_countP_filter_of_imp {α : Type} (l : List α) (p q : α → Bool)
    (hpq : ∀ a, p a = true → q a = true) :
    l.countP p = (l.filter q).countP p := by
  rw [List.countP_filter]
  apply List.countP_congr
  intro a _
  by_cases hp : p a = true
  · rw [hp, hpq a hp]
    simp
  · simp only [Bool.not_eq_true] at hp
    rw [hp]
    simp

/-- C3 amended: the two similarity ratios the code produces. The numerators
are the claim's shared-gameweek agreement counts, but `captain_similarity`
divides by the whole table's distinct gameweek count and `chip_similarity`
divides by `max(1, #rows with chip != '')`, not by the shared gameweek
count. -/
theorem team_correlation_amended (df : Table) (t1 t2 : String) :
    captain_similarity df t1 t2 =
      (((sharedGws df t1 t2).countP (captainSameAt df t1 t2)) : ℚ) /
        ((pdUnique (df.map (fun r => r.gw))).length : ℚ) ∧
    chip_similarity df t1 t2 =
      (((sharedGws df t1 t2).countP (chipSameAt df t1 t2)) : ℚ) /
        ((max 1 (df.filter (fun r => ¬ r.chip = some "")).length : ℕ) : ℚ) := by
  have hcnt := correlationCounts_go df t1 t2
    (pdUnique (df.map (fun r => r.gw))) 0 0
  have hcap : (correlationCounts df t1 t2).1 =
      (sharedGws df t1 t2).countP (captainSameAt df t1 t2) := by
    rw [correlationCounts, hcnt]
    simp only [Nat.zero_add]
    exact countP_eq_countP_filter_of_imp _ _ _ (captainSameAt_present df t1 t2)
  have hchip : (correlationCounts df t1 t2).2 =
      (sharedGws df t1 t2).countP (chipSameAt df t1 t2) := by
    rw [correlationCounts, hcnt]
    simp only [Nat.zero_add]
    exact countP_eq_countP_filter_of_imp _ _ _ (chipSameAt_present df t1 t2)
  exact ⟨by rw [captain_similarity, hcap], by rw [chip_similarity, hchip]⟩

/-! ### Forecaster confidence -/

/-- The sample variance (`ddof = 1`) of a series, exact over ℚ. -/
def sampleVar (l : List ℚ) : ℚ :=
  (l.map (fun x => (x - l.sum / (l.length : ℚ)) ^ 2)).sum /
    ((l.length : ℚ) - 1)

/-- `Series.std()` (sample standard deviation, `ddof = 1`): NaN for fewer
than two values, otherwise the square root of the sample variance.  The
square root is irrational in general, so the model abstracts it as a
parameter `sq`; every theorem below assumes of `sq` only what the reasoning
needs (positivity on positives), and witnesses instantiate it. -/
def pdStd (sq : ℚ → ℚ) (l : List ℚ) : PyFloat :=
  if l.length ≤ 1 then .nan else .fin (sq (sampleVar l))

/-- The confidence pipeline of `predict_performance` for one team:
`consistency = 1 - std/mean` over the team's weekly points, then
`confidence = min(max(consistency * 100, 0), 100)`. -/
def confidence (sq : ℚ → ℚ) (df : Table) (name : String) : PyFloat :=
  pyMin (pyMax (((PyFloat.fin 1).sub
    ((pdStd sq ((teamRows df name).map (fun r => (r.points : ℚ)))).div
      (pdMean ((teamRows df name).map (fun r => (r.points : ℚ)))))).mul
        (.fin 100)) (.fin 0)) (.fin 100)

/-- The claim's range predicate: a genuine finite value within [0, 100]
(NaN and the infinities are not in the interval). -/
def PyFloat.within100 : PyFloat → Prop
  | .fin q => 0 ≤ q ∧ q ≤ 100
  | _ => False

lemma PyFloat.nan_div (x : PyFloat) : PyFloat.div .nan x = .nan := by
  cases x <;> rfl

/-- C9 counterexample input: team A has a single gameweek row, team Z two
rows of zero points. -/
def fcDf : Table :=
  [⟨1, "A", 50, 0, 0, 0, none, 7, 10, 0⟩,
   ⟨1, "Z", 0, 0, 0, 0, none, 1, 0, 0⟩,
   ⟨2, "Z", 0, 0, 0, 0, none, 1, 0, 0⟩]

/-- C9 counterexample: for a single-row team the sample std is NaN, and for an
all-zero team std/mean is 0/0 = NaN; `min(max(NaN, 0), 100)` propagates NaN,
which lies outside [0, 100]. -/
theorem predict_confidence_counterexample :
    ¬ (confidence id fcDf "A").within100 ∧
      ¬ (confidence id fcDf "Z").within100 := by
  have hA : teamRows fcDf "A" = [⟨1, "A", 50, 0, 0, 0, none, 7, 10, 0⟩] := by
    decide
  have hZ : teamRows fcDf "Z" =
      [⟨1, "Z", 0, 0, 0, 0, none, 1, 0, 0⟩,
       ⟨2, "Z", 0, 0, 0, 0, none, 1, 0, 0⟩] := by decide
  constructor
  · have hstd : pdStd id ((teamRows fcDf "A").map
        (fun r => (r.points : ℚ))) = .nan := by
      rw [hA, pdStd, if_pos]
      simp
    have hc : confidence id fcDf "A" = .nan := by
      unfold confidence
      rw [hstd, PyFloat.nan_div]
      rfl
    rw [hc]
    exact fun hfalse => hfalse
  · have hstd : pdStd id ((teamRows fcDf "Z").map
        (fun r => (r.points : ℚ))) = .fin 0 := by
      rw [hZ, pdStd, if_neg (by simp)]
      norm_num [sampleVar]
    have hmean : pdMean ((teamRows fcDf "Z").map
        (fun r => (r.points : ℚ))) = .fin 0 := by
      rw [hZ, pdMean, if_neg (by simp)]
      norm_num
    have hc : confidence id fcDf "Z" = .nan := by
      unfold confidence
      rw [hstd, hmean]
      have hdiv : (PyFloat.fin 0).div (.fin 0) = .nan := by
        norm_num [PyFloat.div]
      rw [hdiv]
      rfl
    rw [hc]
    exact fun hfalse => hfalse

lemma clamp100_within (x : PyFloat) (hx : x ≠ .nan) :
    (pyMin (pyMax x (.fin 0)) (.fin 100)).within100 := by
  cases x with
  | nan => exact absurd rfl hx
  | pinf =>
    have h1 : pyMax PyFloat.pinf (.fin 0) = .pinf := rfl
    have h2 : pyMin PyFloat.pinf (.fin 100) = .fin 100 := rfl
    rw [h1, h2]
    exact ⟨by norm_num, le_refl _⟩
  | ninf =>
    have h1 : pyMax PyFloat.ninf (.fin 0) = .fin 0 := rfl
    have h2 : pyMin (PyFloat.fin 0) (.fin 100) = .fin 0 := by
      rw [pyMin, if_neg]
      simp [PyFloat.lt]
    rw [h1, h2]
    exact ⟨le_refl _, by norm_num⟩
  | fin q =>
    by_cases h0 : q < 0
    · have h1 : pyMax (PyFloat.fin q) (.fin 0) = .fin 0 := by
        rw [pyMax, if_pos]
        simpa [PyFloat.lt] using h0
      have h2 : pyMin (PyFloat.fin 0) (.fin 100) = .fin 0 := by
        rw [pyMin, if_neg]
        simp [PyFloat.lt]
      rw [h1, h2]
      exact ⟨le_refl _, by norm_num⟩
    · push_neg at h0
      have h1 : pyMax (PyFloat.fin q) (.fin 0) = .fin q := by
        rw [pyMax, if_neg]
        simpa [PyFloat.lt] using h0
      rw [h1]
      by_cases h2 : 100 < q
      · have h3 : pyMin (PyFloat.fin q) (.fin 100) = .fin 100 := by
          rw [pyMin, if_pos]
          simpa [PyFloat.lt] using h2
        rw [h3]
        exact ⟨by norm_num, le_refl _⟩
      · push_neg at h2
        have h3 : pyMin (PyFloat.fin q) (.fin 100) = .fin q := by
          rw [pyMin, if_neg]
          simpa [PyFloat.lt] using h2
        rw [h3]
        exact ⟨h0, h2⟩

lemma consistency_chain_ne_nan (d : PyFloat) (hd : d ≠ .nan) :
    ((PyFloat.fin 1).sub d).mul (.fin 100) ≠ .nan := by
  cases d with
  | nan => exact absurd rfl hd
  | pinf =>
    have h2 : PyFloat.mul .ninf (.fin 100) = .ninf := by
      norm_num [PyFloat.mul]
    have h1 : (PyFloat.fin 1).sub .pinf = .ninf := rfl
    rw [h1, h2]
    exact fun hcontra => PyFloat.noConfusion hcontra
  | ninf =>
    have h2 : PyFloat.mul .pinf (.fin 100) = .pinf := by
      norm_num [PyFloat.mul]
    have h1 : (PyFloat.fin 1).sub .ninf = .pinf := rfl
    rw [h1, h2]
    exact fun hcontra => PyFloat.noConfusion hcontra
  | fin q =>
    have h1 : ((PyFloat.fin 1).sub (.fin q)).mul (.fin 100) =
        .fin ((1 - q) * 100) := rfl
    rw [h1]
    exact fun hcontra => PyFloat.noConfusion hcontra

/-- C9 amended: for every square-root model positive on positives and every
team with at least two gameweek rows whose points are not all zero, the
forecaster's confidence is a finite value in [0, 100].  (The excluded cases
produce NaN: see the counterexample.) -/
theorem predict_confidence_amended (sq : ℚ → ℚ) (df : Table) (name : String)
    (hsq : ∀ q, 0 < q → 0 < sq q)
    (hn : 2 ≤ (teamRows df name).length)
    (hnz : ∃ r ∈ teamRows df name, r.points ≠ 0) :
    (confidence sq df name).within100 := by
  set pts := (teamRows df name).map (fun r => (r.points : ℚ)) with hpts
  have hlen : pts.length = (teamRows df name).length := by
    rw [hpts, List.length_map]
  have hstd : pdStd sq pts = .fin (sq (sampleVar pts)) := by
    rw [pdStd, if_neg]
    omega
  have hmean : pdMean pts = .fin (pts.sum / (pts.length : ℚ)) := by
    rw [pdMean, if_neg]
    omega
  have hrw : confidence sq df name = pyMin (pyMax (((PyFloat.fin 1).sub
      ((pdStd sq pts).div (pdMean pts))).mul (.fin 100)) (.fin 0))
        (.fin 100) := rfl
  rw [hrw, hstd, hmean]
  by_cases hm : pts.sum / (pts.length : ℚ) = 0
  · have hvar : 0 < sampleVar pts := by
      obtain ⟨r, hr, hrnz⟩ := hnz
      have hx : ((r.points : ℚ)) ∈ pts := by
        rw [hpts]
        exact List.mem_map_of_mem _ hr
      have hx2 : ((r.points : ℚ)) ^ 2 ∈ pts.map (fun x => x ^ 2) :=
        List.mem_map_of_mem _ hx
      have hpos : 0 < ((r.points : ℚ)) ^ 2 :=
        pow_two_pos_of_ne_zero (by exact_mod_cast hrnz)
      have hsum : ((r.points : ℚ)) ^ 2 ≤ (pts.map (fun x => x ^ 2)).sum := by
        refine List.single_le_sum ?_ _ hx2
        intro x hmx
        obtain ⟨y, _, rfl⟩ := List.mem_map.mp hmx
        exact sq_nonneg y
      have hS : (pts.map (fun x =>
          (x - pts.sum / (pts.length : ℚ)) ^ 2)).sum =
          (pts.map (fun x => x ^ 2)).sum := by
        simp only [hm, sub_zero]
      have hden : 0 < (pts.length : ℚ) - 1 := by
        have h2 : (2 : ℚ) ≤ (pts.length : ℚ) := by
          exact_mod_cast hlen ▸ hn
        linarith
      rw [sampleVar, hS]
      exact div_pos (lt_of_lt_of_le hpos hsum) hden
    have hdiv : (PyFloat.fin (sq (sampleVar pts))).div
        (.fin (pts.sum / (pts.length : ℚ))) = .pinf := by
      rw [PyFloat.div, if_pos hm, if_pos (hsq _ hvar)]
    rw [hdiv]
    exact clamp100_within _
      (consistency_chain_ne_nan _ (fun hcontra => PyFloat.noConfusion hcontra))
  · have hdiv : (PyFloat.fin (sq (sampleVar pts))).div
        (.fin (pts.sum / (pts.length : ℚ))) =
        .fin (sq (sampleVar pts) / (pts.sum / (pts.length : ℚ))) := by
      rw [PyFloat.div, if_neg hm]
    rw [hdiv]
    exact clamp100_within _
      (consistency_chain_ne_nan _ (fun hcontra => PyFloat.noConfusion hcontra))

/-- Witness for C9's amended theorem: team B of `effDf` has two rows with
nonzero points, and the identity as square-root model is positive on
positives. -/
theorem predict_confidence_amended_witness :
    (confidence id effDf "B").within100 :=
  predict_confidence_amended id effDf "B" (fun _ h => h) (by decide)
    (by decide)

end Fpl
